import Mathlib

/-!
Verification of the sensor-fusion nowcasting engine of the cmu-delphi nowcast
repository, against its natural-language specification.

The embedding follows the Python sources:
  * src/fusion/us_fusion.py   (UsFusion: weight rows, weight matrices, statespace)
  * src/fusion/nowcast.py     (Nowcast driver: data assembly, pruning, batch loop)
  * src/fusion0.py            (Fusion: the original sensor fusion kernel)
  * src/util/flu_data_source.py (FluDataSource.get_missing_locations)

Matrices built from population fractions are lists of lists of rationals, as the
source uses exact arbitrary-precision fractions for the statespace derivation.
Floating-point vectors are idealized as rationals as well; the numpy NaN marker
for a missing value is modeled with Option. The modules delphi.nowcast.fusion.fusion,
delphi.nowcast.fusion.covariance, delphi.utils.geo and delphi.utils.epiweek are not
part of the provided sources (only their tests and callers are); the definitions
that stand in for them are marked as modelled from the spec.
-/

/-! ### List-based exact linear algebra over the rationals -/

/-- Dot product of two lists of rationals; extra entries of the longer list are
ignored, as both operands always have equal length at call sites. -/
def dotQ (a b : List ℚ) : ℚ := (List.zipWith (fun x y => x * y) a b).sum

/-- Transpose of a row-major matrix. Column count is read off the first row,
matching the rectangular numpy arrays of the source. -/
def transposeQ (M : List (List ℚ)) : List (List ℚ) :=
  (List.range (M.headD []).length).map (fun j => M.map (fun r => r.getD j 0))

/-- Row-major matrix product, as numpy dot. -/
def matMulQ (A B : List (List ℚ)) : List (List ℚ) :=
  A.map (fun r => (transposeQ B).map (fun c => dotQ r c))

/-- Matrix times column vector. -/
def matVecQ (A : List (List ℚ)) (v : List ℚ) : List ℚ :=
  A.map (fun r => dotQ r v)

/-- Row vector times matrix. -/
def rowVecMulQ (v : List ℚ) (P : List (List ℚ)) : List ℚ :=
  (transposeQ P).map (fun c => dotQ v c)

/-- The quadratic form v P v, in the orientation the extraction step computes it. -/
def quadFormQ (P : List (List ℚ)) (v : List ℚ) : ℚ := dotQ (rowVecMulQ v P) v

/-- Main diagonal of a square matrix, as numpy diag. -/
def diagQ (M : List (List ℚ)) : List ℚ :=
  (List.range M.length).map (fun i => (M.getD i []).getD i 0)

/-- Identity matrix of the given size. -/
def identityQ (n : Nat) : List (List ℚ) :=
  (List.range n).map (fun i => (List.range n).map (fun j => if i = j then (1 : ℚ) else 0))

/-- Keep the elements whose entry in the boolean mask is true; this is
itertools.compress and boolean-mask indexing of numpy arrays. -/
def compress {α : Type} (xs : List α) (mask : List Bool) : List α :=
  ((xs.zip mask).filter (fun p => p.2)).map (fun p => p.1)

/-! ### Reduced row echelon form by exact Gaussian elimination

The statespace derivation requires exact rank and membership decisions, so the
source performs Gaussian elimination over fractions. The recursion processes the
columns left to right, keeping the finished pivot rows, the unprocessed rows, and
the pivot column indices. -/

/-- Subtract from every entry of row r the matching entry of the pivot row scaled
by the leading coefficient of r in column c. -/
def elimRow (prow : List ℚ) (c : Nat) (r : List ℚ) : List ℚ :=
  List.zipWith (fun x y => x - r.getD c 0 * y) r prow

/-- One pass of Gauss-Jordan elimination over the given column indices. -/
def rrefGo (cols : List Nat) (done rest : List (List ℚ)) (pivots : List Nat) :
    List (List ℚ) × List (List ℚ) × List Nat :=
  match cols with
  | [] => (done, rest, pivots)
  | c :: cs =>
    match rest.findIdx? (fun r => r.getD c 0 != 0) with
    | none => rrefGo cs done rest pivots
    | some i =>
      let row := rest.getD i []
      let prow := row.map (fun x => x / row.getD c 0)
      rrefGo cs (done.map (elimRow prow c) ++ [prow])
        ((rest.eraseIdx i).map (elimRow prow c)) (pivots ++ [c])

/-- Run the elimination on all columns of M. -/
def rrefData (M : List (List ℚ)) : List (List ℚ) × List (List ℚ) × List Nat :=
  rrefGo (List.range (M.headD []).length) [] M []

/-- Reduced row echelon form: pivot rows in order, all-zero rows at the bottom. -/
def rrefQ (M : List (List ℚ)) : List (List ℚ) :=
  (rrefData M).1 ++ (rrefData M).2.1

/-- The pivot column indices of M, in increasing order. -/
def pivotColsQ (M : List (List ℚ)) : List Nat := (rrefData M).2.2

/-- The rank of M. -/
def rankQ (M : List (List ℚ)) : Nat := (pivotColsQ M).length

/-- Matrix inverse by Gauss-Jordan elimination of the matrix augmented with the
identity. numpy raises LinAlgError on a singular matrix, modeled as an error. -/
def matInvQ (M : List (List ℚ)) : Except String (List (List ℚ)) :=
  let n := M.length
  let aug := (M.zip (identityQ n)).map (fun p => p.1 ++ p.2)
  let red := rrefQ aug
  if red.map (fun r => r.take n) = identityQ n then .ok (red.map (fun r => r.drop n))
  else .error "LinAlgError: singular matrix"

/-! ### Geography catalog

The modules delphi.utils.geo.locations and delphi.utils.geo.populations are not
part of the provided sources. Modelled from the spec: the catalog exposes an
ordered region list (the canonical output order), the ordered atom list, the
constituent atoms of each location, and a population per atom and season (the
season argument is optional; the most recent population is used when absent).
The embedding is parameterized over this catalog. -/

structure Geo where
  region_list : List String
  atom_list : List String
  region_map : String → List String
  population : String → Option Nat → Nat

/-! ### UsFusion (src/fusion/us_fusion.py) -/

namespace UsFusion

/-- The populations of the given atoms with respect to a location: the population
of each atom inside the location, and zero for atoms outside it. This is the
list built by the loop of get_weight_row. -/
def constituent_populations (geo : Geo) (location : String) (season : Option Nat)
    (atoms : List String) : List Nat :=
  atoms.map (fun atom =>
    if atom ∈ geo.region_map location then geo.population atom season else 0)

/-- Population weight row of a location over the given atoms, from
UsFusion.get_weight_row. Raises when the location has no constituent atoms with
population among the given atoms. -/
def get_weight_row (geo : Geo) (location : String) (season : Option Nat)
    (atoms : List String) : Except String (List ℚ) :=
  if (constituent_populations geo location season atoms).sum = 0 then
    .error "location has no constituent atoms"
  else
    .ok ((constituent_populations geo location season atoms).map
      (fun (pop : Nat) => (pop : ℚ) / (((constituent_populations geo location season atoms).sum : Nat) : ℚ)))

/-- Stack of weight rows for the given locations, from UsFusion.get_weight_matrix. -/
def get_weight_matrix (geo : Geo) (locations : List String) (season : Option Nat)
    (atoms : List String) : Except String (List (List ℚ)) :=
  match locations with
  | [] => .ok []
  | loc :: rest =>
    match get_weight_row geo loc season atoms with
    | .error e => .error e
    | .ok row =>
      match get_weight_matrix geo rest season atoms with
      | .error e => .error e
      | .ok rows => .ok (row :: rows)

/-- All locations that survive the exclusion filter; these are the candidate
output locations of determine_statespace. -/
def candidate_outputs (geo : Geo) (exclude_locations : List String) : List String :=
  geo.region_list.filter (fun a => decide (a ∉ exclude_locations))

/-- The atoms that survive the exclusion filter. -/
def filtered_atoms (geo : Geo) (exclude_locations : List String) : List String :=
  geo.atom_list.filter (fun a => decide (a ∉ exclude_locations))

end UsFusion

/-! ### The rational statespace solver (delphi.nowcast.fusion.fusion)

The module delphi.nowcast.fusion.fusion is not part of the provided sources (only
its unit tests are). Modelled from the spec, section 4.3: if the rank of H0
equals the number of atoms, return everything unchanged; otherwise find the rows
of W0 that lie in the row span of H0, build a latent basis of dimension rank H0
from the reduced form of H0, and express H0 and the surviving rows of W0 in the
coordinates of that basis (the basis rows have unit pivot columns, so the
coordinates of a spanned row are its entries at the pivot columns). -/

namespace fusion

/-- Residual of v after eliminating against the reduced basis rows; v lies in the
row span exactly when the residual vanishes. -/
def span_residual (pivots : List Nat) (basis : List (List ℚ)) (v : List ℚ) : List ℚ :=
  match pivots, basis with
  | c :: cs, b :: bs =>
    span_residual cs bs (List.zipWith (fun x y => x - v.getD c 0 * y) v b)
  | _, _ => v

/-- Coordinates of a row that lies in the span of the reduced basis: its entries
at the pivot columns. -/
def coords_of (pivots : List Nat) (v : List ℚ) : List ℚ := pivots.map (fun c => v.getD c 0)

/-- Whether a row lies in the row span of the reduced basis. -/
def observable_row (pivots : List Nat) (basis : List (List ℚ)) (v : List ℚ) : Bool :=
  (span_residual pivots basis v).all (fun x => x == 0)

/-- The enumerated rows of W0 that are observable given the inputs H0. -/
def selected_of (H0 W0 : List (List ℚ)) : List (Nat × List ℚ) :=
  W0.enum.filter (fun p => observable_row (pivotColsQ H0) ((rrefQ H0).take (rankQ H0)) p.2)

/-- Modelled from the spec: determine_statespace of the absent module
delphi.nowcast.fusion.fusion. Returns H, W over the latent basis and the indices
of the surviving rows of W0. -/
def determine_statespace (H0 W0 : List (List ℚ)) :
    List (List ℚ) × List (List ℚ) × List Nat :=
  if rankQ H0 = ((H0 ++ W0).headD []).length then
    (H0, W0, List.range W0.length)
  else
    (H0.map (coords_of (pivotColsQ H0)),
     (selected_of H0 W0).map (fun p => coords_of (pivotColsQ H0) p.2),
     (selected_of H0 W0).map (fun p => p.1))

end fusion

namespace UsFusion

/-- Look up each selected row index in the list of candidate locations; a Python
list index out of range raises. -/
def select_rows (locs : List String) (rows : List Nat) : Except String (List String) :=
  match rows with
  | [] => .ok []
  | i :: rest =>
    match locs.get? i with
    | none => .error "IndexError: list index out of range"
    | some loc =>
      match select_rows locs rest with
      | .error e => .error e
      | .ok out => .ok (loc :: out)

/-- UsFusion.determine_statespace: sanity check on excluded inputs, weight
matrices over the non-excluded atoms, the shortcut when the inputs cover every
atom, and otherwise the rational statespace solver. The final astype(float)
conversion of the source is omitted; values stay exact. -/
def determine_statespace (geo : Geo) (input_locations : List String)
    (season : Option Nat) (exclude_locations : List String) :
    Except String (List (List ℚ) × List (List ℚ) × List String) :=
  if exclude_locations.any (fun a => decide (a ∈ input_locations)) then
    .error "input contains excluded locations"
  else
    match get_weight_matrix geo input_locations season (filtered_atoms geo exclude_locations) with
    | .error e => .error e
    | .ok H0 =>
      match get_weight_matrix geo (candidate_outputs geo exclude_locations) season
          (filtered_atoms geo exclude_locations) with
      | .error e => .error e
      | .ok W0 =>
        if (filtered_atoms geo exclude_locations).all (fun a => decide (a ∈ input_locations)) then
          .ok (H0, W0, candidate_outputs geo exclude_locations)
        else
          match select_rows (candidate_outputs geo exclude_locations)
              (fusion.determine_statespace H0 W0).2.2 with
          | .error e => .error e
          | .ok output_locations =>
            .ok ((fusion.determine_statespace H0 W0).1,
                 (fusion.determine_statespace H0 W0).2.1, output_locations)

end UsFusion

/-! ### The floating-point fusion kernel used by the driver
(delphi.nowcast.fusion.fusion fuse and extract)

Not part of the provided sources; modelled from the spec, section 4.4:
P equals the inverse of (transpose H, inverse R, H) and x = P (transpose H)
(inverse R) z; extraction returns (W x, W P (transpose W)). Values are kept
exact as rationals. -/

namespace fusion

/-- Modelled from the spec: the fuse function of the absent module
delphi.nowcast.fusion.fusion. -/
def fuse (z : List ℚ) (R H : List (List ℚ)) :
    Except String (List ℚ × List (List ℚ)) :=
  match matInvQ R with
  | .error e => .error e
  | .ok Ri =>
    let HtRi := matMulQ (transposeQ H) Ri
    match matInvQ (matMulQ HtRi H) with
    | .error e => .error e
    | .ok P => .ok (matVecQ (matMulQ P HtRi) z, P)

/-- Modelled from the spec: the extract function of the absent module
delphi.nowcast.fusion.fusion. Returns the output means and the full output
covariance matrix. -/
def extract (x : List ℚ) (P W : List (List ℚ)) : List ℚ × List (List ℚ) :=
  (matVecQ W x, matMulQ (matMulQ W P) (transposeQ W))

end fusion

/-- numpy sqrt of a (real-valued) variance: NaN on a negative argument, modeled
as none. -/
noncomputable def np_sqrt (q : ℚ) : Option ℝ :=
  if 0 ≤ q then some (Real.sqrt (q : ℝ)) else none

/-! ### The Nowcast driver (src/fusion/nowcast.py) -/

/-- The DataSource interface of src/fusion/nowcast.py, as a record of functions.
Missing readings are none. -/
structure DataSource where
  get_locations : List String
  get_missing_locations : Nat → List String
  get_sensors : List String
  get_weeks : List Nat
  get_truth_value : Nat → String → Option ℚ
  get_sensor_value : Nat → String → String → Option ℚ

namespace Nowcast

/-- Modelled from the spec: split_epiweek of the absent module
delphi.utils.epiweek splits the integer yyyyww into year and week. -/
def split_epiweek (epiweek : Nat) : Nat × Nat := (epiweek / 100, epiweek % 100)

/-- Nowcast.get_season: the first year of the flu season containing the epiweek. -/
def get_season (epiweek : Nat) : Nat :=
  let p := split_epiweek epiweek
  if p.2 < 40 then p.1 - 1 else p.1

/-- One cell of the training matrix: sensor reading minus ground truth when both
are present, and missing otherwise. This is the body of the training loop of
get_sensor_data_for_all_weeks. -/
def noise_cell (ds : DataSource) (week : Nat) (p : String × String) : Option ℚ :=
  match ds.get_sensor_value week p.2 p.1, ds.get_truth_value week p.2 with
  | some sensor, some truth => some (sensor - truth)
  | _, _ => none

/-- One cell of the test matrix: the sensor reading, possibly missing. -/
def reading_cell (ds : DataSource) (week : Nat) (p : String × String) : Option ℚ :=
  ds.get_sensor_value week p.2 p.1

/-- Nowcast.compute_nowcast. The covariance estimator of the absent module
delphi.nowcast.fusion.covariance is passed in as a function, as the source passes
the shrinkage strategy in; the driver only forwards the returned matrix.
Readings reaching this point have been pruned of missing values, so the reading
vector is plain rationals. -/
noncomputable def compute_nowcast (geo : Geo)
    (mle_cov : List (List (Option ℚ)) → List (List ℚ))
    (input_locations : List String) (noise : List (List (Option ℚ)))
    (reading : List ℚ) (season : Option Nat) (exclude_locations : List String) :
    Except String (List (String × ℚ × Option ℝ)) :=
  match UsFusion.determine_statespace geo input_locations season exclude_locations with
  | .error e => .error e
  | .ok (H, W, output_locations) =>
    match fusion.fuse reading (mle_cov noise) H with
    | .error e => .error e
    | .ok (x, P) =>
      .ok (output_locations.zip ((fusion.extract x P W).1.zip
        ((diagQ (fusion.extract x P W).2).map np_sqrt)))

/-- Nowcast.get_sensor_data_for_all_weeks: columns are sensor-location pairs,
training rows are the data-source weeks before the last test week, test rows are
the test weeks; columns that are entirely missing in training or entirely
missing in testing are removed. max of an empty Python list raises; the fold
below is only meaningful for a nonempty list of test weeks. -/
def get_sensor_data_for_all_weeks (ds : DataSource) (test_weeks : List Nat) :
    List (String × String) × List (List (Option ℚ)) × List (List (Option ℚ)) :=
  let inputs := ds.get_sensors.flatMap (fun sen => ds.get_locations.map (fun loc => (sen, loc)))
  let last_test_week := test_weeks.foldl max 0
  let train_weeks := ds.get_weeks.filter (fun w => decide (w < last_test_week))
  let sensor_noise := train_weeks.map (fun w => inputs.map (noise_cell ds w))
  let sensor_readings := test_weeks.map (fun w => inputs.map (reading_cell ds w))
  let keep_columns := (List.range inputs.length).map (fun j =>
    (sensor_noise.any (fun row => (row.getD j none).isSome)) &&
    (sensor_readings.any (fun row => (row.getD j none).isSome)))
  (compress inputs keep_columns,
   sensor_noise.map (fun row => compress row keep_columns),
   sensor_readings.map (fun row => compress row keep_columns))

/-- Nowcast.get_sensor_data_for_week: restrict to training rows before the test
week, drop rows with no observation, drop columns with fewer than
min_observations observed training entries, with a missing test reading, or with
an excluded location, and compress the inputs to the surviving columns. -/
def get_sensor_data_for_week (ds : DataSource) (min_observations : Nat)
    (inputs : List (String × String)) (sensor_noise : List (List (Option ℚ)))
    (week : Nat) (week_reading : List (Option ℚ)) (exclude_locations : List String) :
    List String × List (List (Option ℚ)) × List (Option ℚ) :=
  let train_weeks := ds.get_weeks.take sensor_noise.length
  let past_mask := train_weeks.map (fun w => decide (w < week))
  let noise := compress sensor_noise past_mask
  let keep_rows := noise.map (fun row => row.any (fun c => c.isSome))
  let keep_columns := (List.range inputs.length).map (fun j =>
    decide (min_observations ≤ noise.countP (fun row => (row.getD j none).isSome)) &&
    (week_reading.getD j none).isSome &&
    decide ((inputs.getD j ("", "")).2 ∉ exclude_locations))
  let selected_inputs := compress inputs keep_columns
  let input_locations := selected_inputs.map (fun p => p.2)
  (input_locations,
   (compress noise keep_rows).map (fun row => compress row keep_columns),
   compress week_reading keep_columns)

/-- The body of the batch loop of Nowcast.batch_nowcast for a single test week:
per-week exclusions and pruning, the nowcast itself, and the progress report,
which reads entry zero of the nowcast and therefore raises IndexError when the
nowcast is empty. After pruning every surviving reading is present, so the
missing marker is stripped before fusing. -/
noncomputable def process_week (geo : Geo)
    (mle_cov : List (List (Option ℚ)) → List (List ℚ)) (ds : DataSource)
    (min_observations : Nat) (inputs : List (String × String))
    (noise : List (List (Option ℚ))) (week : Nat) (week_reading : List (Option ℚ)) :
    Except String (List (String × ℚ × Option ℝ)) :=
  match compute_nowcast geo mle_cov
      (get_sensor_data_for_week ds min_observations inputs noise week week_reading
        (ds.get_missing_locations week)).1
      (get_sensor_data_for_week ds min_observations inputs noise week week_reading
        (ds.get_missing_locations week)).2.1
      ((get_sensor_data_for_week ds min_observations inputs noise week week_reading
        (ds.get_missing_locations week)).2.2.map (fun c => c.getD 0))
      (some (get_season week)) (ds.get_missing_locations week) with
  | .error e => .error e
  | .ok nowcast =>
    if nowcast.isEmpty then .error "IndexError: tuple index out of range"
    else .ok nowcast

/-- The batch loop of Nowcast.batch_nowcast over the zipped test weeks and test
reading rows; an exception in any iteration aborts the whole batch. -/
noncomputable def batch_go (geo : Geo)
    (mle_cov : List (List (Option ℚ)) → List (List ℚ)) (ds : DataSource)
    (min_observations : Nat) (inputs : List (String × String))
    (noise : List (List (Option ℚ))) :
    List (Nat × List (Option ℚ)) → Except String (List (List (String × ℚ × Option ℝ)))
  | [] => .ok []
  | (week, week_reading) :: rest =>
    match process_week geo mle_cov ds min_observations inputs noise week week_reading with
    | .error e => .error e
    | .ok nowcast =>
      match batch_go geo mle_cov ds min_observations inputs noise rest with
      | .error e => .error e
      | .ok rest_nowcasts => .ok (nowcast :: rest_nowcasts)

/-- Nowcast.batch_nowcast: collect all data up front, then nowcast each test
week in order. -/
noncomputable def batch_nowcast (geo : Geo)
    (mle_cov : List (List (Option ℚ)) → List (List ℚ)) (ds : DataSource)
    (min_observations : Nat) (test_weeks : List Nat) :
    Except String (List (List (String × ℚ × Option ℝ))) :=
  batch_go geo mle_cov ds min_observations (get_sensor_data_for_all_weeks ds test_weeks).1
    (get_sensor_data_for_all_weeks ds test_weeks).2.1
    (test_weeks.zip (get_sensor_data_for_all_weeks ds test_weeks).2.2)

end Nowcast

/-! ### The original fusion kernel (src/fusion0.py) -/

namespace Fusion0

/-- Fusion.fuse of src/fusion0.py: from the measurement vector z, the measurement
noise precision Ri and the map H, compute the state estimate and its covariance.
Floats are idealized as reals. -/
noncomputable def fuse {i s : Nat} (z : Matrix (Fin i) (Fin 1) ℝ)
    (Ri : Matrix (Fin i) (Fin i) ℝ) (H : Matrix (Fin i) (Fin s) ℝ) :
    Matrix (Fin s) (Fin 1) ℝ × Matrix (Fin s) (Fin s) ℝ :=
  let HtRi := H.transpose * Ri
  let P := (HtRi * H)⁻¹
  (P * HtRi * z, P)

/-- Fusion.extract of src/fusion0.py: the combined means W x and the combined
variances, the diagonal of W P (transpose W) reshaped as a column. -/
noncomputable def extract {s o : Nat} (x : Matrix (Fin s) (Fin 1) ℝ)
    (P : Matrix (Fin s) (Fin s) ℝ) (W : Matrix (Fin o) (Fin s) ℝ) :
    Matrix (Fin o) (Fin 1) ℝ × Matrix (Fin o) (Fin 1) ℝ :=
  (W * x, fun j _ => (W * P * W.transpose) j j)

end Fusion0

/-! ### FluDataSource.get_missing_locations (src/util/flu_data_source.py) -/

namespace FluDataSource

/-- FluDataSource.get_missing_locations, parameterized over the atom list and the
truth lookup (the source reads both from the geography catalog and the epidata
cache). The source iterates over a Python set and returns a set difference as a
tuple; the filter below is an order-fixing representative of that set. -/
def get_missing_locations (atom_list : List String)
    (truth : Nat → String → Option ℚ) (epiweek : Nat) : List String :=
  let available_locations := atom_list.filter (fun loc => (truth epiweek loc).isSome)
  if available_locations.isEmpty then []
  else atom_list.filter (fun loc => decide (loc ∉ available_locations))

end FluDataSource

/-! ### Concrete instances used to evaluate the development on closed inputs -/

/-- A catalog with a single atomic location. -/
def geoSingle : Geo where
  region_list := ["x"]
  atom_list := ["x"]
  region_map := fun loc => if loc = "x" then ["x"] else []
  population := fun _ _ => 1

/-- A catalog with one parent region over four atoms, for the exclusion
scenarios: the parent par has constituent atoms aa, bb, dd, ee with equal
populations. -/
def geoPar : Geo where
  region_list := ["par", "aa", "bb", "dd", "ee"]
  atom_list := ["aa", "bb", "dd", "ee"]
  region_map := fun loc =>
    if loc = "par" then ["aa", "bb", "dd", "ee"]
    else if loc = "aa" then ["aa"]
    else if loc = "bb" then ["bb"]
    else if loc = "dd" then ["dd"]
    else if loc = "ee" then ["ee"]
    else []
  population := fun _ _ => 1

/-- A covariance estimator stub returning an empty matrix, for batches whose
surviving column set is empty. -/
def mleNil : List (List (Option ℚ)) → List (List ℚ) := fun _ => []

/-- A covariance estimator stub returning the one-by-one identity. -/
def mleOne : List (List (Option ℚ)) → List (List ℚ) := fun _ => [[1]]

/-- A data source whose only sensor reads the only atom on training week 1 and on
test week 8, but not on test week 7. -/
def dsSkip : DataSource where
  get_locations := ["x"]
  get_missing_locations := fun _ => []
  get_sensors := ["s"]
  get_weeks := [1]
  get_truth_value := fun w _ => if w = 1 then some 0 else none
  get_sensor_value := fun w _ _ =>
    if w = 1 then some 1 else if w = 8 then some 2 else none

/-- A data source with two training weeks, used to exercise the per-week row and
column pruning on a directly supplied matrix. -/
def dsTwoWeeks : DataSource where
  get_locations := ["X", "Y"]
  get_missing_locations := fun _ => []
  get_sensors := ["s"]
  get_weeks := [1, 2]
  get_truth_value := fun _ _ => none
  get_sensor_value := fun _ _ _ => none

/-- A small data source for evaluating the bulk assembly: one sensor, one
location, readings on weeks 1, 2 and 4 and truth on week 1 only. -/
def dsBulk : DataSource where
  get_locations := ["x"]
  get_missing_locations := fun _ => []
  get_sensors := ["s"]
  get_weeks := [1, 2, 3]
  get_truth_value := fun w _ => if w = 1 then some 1 else none
  get_sensor_value := fun w _ _ =>
    if w = 1 then some 3 else if w = 2 then some 5 else if w = 4 then some 7 else none

/-! ### Helper lemmas: lists, masks and compression -/

theorem compress_map {α β : Type} (f : α → β) (xs : List α) (mask : List Bool) :
    compress (xs.map f) mask = (compress xs mask).map f := by
  induction xs generalizing mask with
  | nil => simp [compress]
  | cons x rest ih =>
    cases mask with
    | nil => simp [compress]
    | cons b bs =>
      cases b <;> simp [compress, List.filter] at ih ⊢ <;> exact ih bs

theorem compress_eq_filter {α : Type} (p : α → Bool) (xs : List α) :
    compress xs (xs.map p) = xs.filter p := by
  induction xs with
  | nil => simp [compress]
  | cons x rest ih =>
    cases h : p x <;> simp [compress, List.filter, h] at ih ⊢ <;> exact ih

theorem getD_map_of_lt {α β : Type} (f : α → β) (xs : List α) {j : Nat}
    (hj : j < xs.length) (d : β) (d2 : α) :
    (xs.map f).getD j d = f (xs.getD j d2) := by
  rw [List.getD_eq_getElem (xs.map f) d (by simpa using hj),
    List.getD_eq_getElem xs d2 hj, List.getElem_map]

theorem getD_map_range {β : Type} (g : Nat → β) (n : Nat) {i : Nat} (hi : i < n) (d : β) :
    ((List.range n).map g).getD i d = g i := by
  rw [List.getD_eq_getElem _ d (by simpa using hi), List.getElem_map, List.getElem_range]

theorem range_map_getD_self (v : List ℚ) :
    (List.range v.length).map (fun j => v.getD j 0) = v := by
  apply List.ext_getElem (by simp)
  intro i h1 h2
  simp only [List.getElem_map, List.getElem_range]
  rw [List.getD_eq_getElem v 0 h2]

theorem map_range_eq_map {α β : Type} (xs : List α) (g : Nat → β) (p : α → β) (d : α)
    (h : ∀ j, j < xs.length → g j = p (xs.getD j d)) :
    (List.range xs.length).map g = xs.map p := by
  apply List.ext_getElem (by simp)
  intro i h1 h2
  simp only [List.getElem_map, List.getElem_range]
  rw [h i (by simpa using h2), List.getD_eq_getElem xs d (by simpa using h2)]

theorem sum_eq_zero_of_all_zero {l : List ℚ} (h : ∀ x ∈ l, x = 0) : l.sum = 0 := by
  induction l with
  | nil => rfl
  | cons a rest ih =>
    have ha : a = 0 := h a (by simp)
    have hr : rest.sum = 0 := ih (fun x hx => h x (by simp [hx]))
    simp [ha, hr]

theorem sum_eq_one_not_all_zero {l : List ℚ} (h : l.sum = 1) :
    l.all (fun x => x == 0) = false := by
  cases hb : l.all (fun x => x == 0)
  · rfl
  · exfalso
    have hz : ∀ x ∈ l, x = 0 := by
      intro x hx
      simpa using (List.all_eq_true.mp hb) x hx
    rw [sum_eq_zero_of_all_zero hz] at h
    exact one_ne_zero h.symm

/-! ### Helper lemmas: weight rows and weight matrices -/

theorem sum_map_div (l : List Nat) (T : ℚ) :
    (l.map (fun (p : Nat) => (p : ℚ) / T)).sum = ((l.sum : Nat) : ℚ) / T := by
  induction l with
  | nil => simp
  | cons a rest ih =>
    rw [List.map_cons, List.sum_cons, ih, List.sum_cons]
    push_cast
    ring

theorem weight_row_of_ok {geo : Geo} {loc : String} {season : Option Nat} {atoms : List String}
    {r : List ℚ} (h : UsFusion.get_weight_row geo loc season atoms = .ok r) :
    (UsFusion.constituent_populations geo loc season atoms).sum ≠ 0 ∧
    r = (UsFusion.constituent_populations geo loc season atoms).map
      (fun (pop : Nat) => (pop : ℚ) /
        (((UsFusion.constituent_populations geo loc season atoms).sum : Nat) : ℚ)) := by
  unfold UsFusion.get_weight_row at h
  by_cases hz : (UsFusion.constituent_populations geo loc season atoms).sum = 0
  · rw [if_pos hz] at h; cases h
  · rw [if_neg hz] at h
    cases h
    exact ⟨hz, rfl⟩

theorem weight_row_ok {geo : Geo} {loc : String} {season : Option Nat} {atoms : List String}
    (h : (UsFusion.constituent_populations geo loc season atoms).sum ≠ 0) :
    UsFusion.get_weight_row geo loc season atoms =
      .ok ((UsFusion.constituent_populations geo loc season atoms).map
        (fun (pop : Nat) => (pop : ℚ) /
          (((UsFusion.constituent_populations geo loc season atoms).sum : Nat) : ℚ))) := by
  unfold UsFusion.get_weight_row
  rw [if_neg h]

theorem weight_row_sum_one {geo : Geo} {loc : String} {season : Option Nat} {atoms : List String}
    {r : List ℚ} (h : UsFusion.get_weight_row geo loc season atoms = .ok r) : r.sum = 1 := by
  obtain ⟨hz, hr⟩ := weight_row_of_ok h
  rw [hr, sum_map_div, div_self]
  exact_mod_cast hz

theorem constituent_length (geo : Geo) (loc : String) (season : Option Nat)
    (atoms : List String) :
    (UsFusion.constituent_populations geo loc season atoms).length = atoms.length := by
  unfold UsFusion.constituent_populations
  rw [List.length_map]

theorem weight_row_length {geo : Geo} {loc : String} {season : Option Nat} {atoms : List String}
    {r : List ℚ} (h : UsFusion.get_weight_row geo loc season atoms = .ok r) :
    r.length = atoms.length := by
  obtain ⟨_, hr⟩ := weight_row_of_ok h
  rw [hr, List.length_map, constituent_length]

theorem weight_row_zero_outside {geo : Geo} {loc : String} {season : Option Nat}
    {atoms : List String} {r : List ℚ} (h : UsFusion.get_weight_row geo loc season atoms = .ok r)
    {j : Nat} (hj : j < atoms.length) (hout : atoms.getD j "" ∉ geo.region_map loc) :
    r.getD j 0 = 0 := by
  obtain ⟨_, hr⟩ := weight_row_of_ok h
  rw [hr]
  rw [getD_map_of_lt _ _ (lt_of_lt_of_eq hj (constituent_length geo loc season atoms).symm) 0 0]
  have h2 : (UsFusion.constituent_populations geo loc season atoms).getD j 0
      = if atoms.getD j "" ∈ geo.region_map loc then geo.population (atoms.getD j "") season
        else 0 := by
    unfold UsFusion.constituent_populations
    rw [getD_map_of_lt _ atoms hj 0 ""]
  rw [h2, if_neg hout]
  simp

theorem weight_row_error {geo : Geo} {loc : String} {season : Option Nat} {atoms : List String}
    (h : (UsFusion.constituent_populations geo loc season atoms).sum = 0) :
    UsFusion.get_weight_row geo loc season atoms = .error "location has no constituent atoms" := by
  unfold UsFusion.get_weight_row
  rw [if_pos h]

theorem weight_matrix_forall2 {geo : Geo} {locs : List String} {season : Option Nat}
    {atoms : List String} {M : List (List ℚ)}
    (h : UsFusion.get_weight_matrix geo locs season atoms = .ok M) :
    List.Forall₂ (fun loc row => UsFusion.get_weight_row geo loc season atoms = .ok row) locs M := by
  induction locs generalizing M with
  | nil =>
    unfold UsFusion.get_weight_matrix at h
    cases h
    exact List.Forall₂.nil
  | cons loc rest ih =>
    unfold UsFusion.get_weight_matrix at h
    cases hrow : UsFusion.get_weight_row geo loc season atoms with
    | error e => rw [hrow] at h; cases h
    | ok row =>
      rw [hrow] at h
      cases hrest : UsFusion.get_weight_matrix geo rest season atoms with
      | error e => rw [hrest] at h; cases h
      | ok rows =>
        rw [hrest] at h
        cases h
        exact List.Forall₂.cons hrow (ih hrest)

theorem forall2_mem_right {α β : Type} {R : α → β → Prop} {l1 : List α} {l2 : List β}
    (h : List.Forall₂ R l1 l2) {b : β} (hb : b ∈ l2) : ∃ a ∈ l1, R a b := by
  induction h with
  | nil => cases hb
  | cons hab hrest ih =>
    rcases List.mem_cons.mp hb with hb1 | hb2
    · subst hb1; exact ⟨_, by simp, hab⟩
    · obtain ⟨a, ha, hr⟩ := ih hb2
      exact ⟨a, by simp [ha], hr⟩

theorem weight_matrix_length {geo : Geo} {locs : List String} {season : Option Nat}
    {atoms : List String} {M : List (List ℚ)}
    (h : UsFusion.get_weight_matrix geo locs season atoms = .ok M) : M.length = locs.length :=
  (weight_matrix_forall2 h).length_eq.symm

theorem weight_matrix_error_of_mem {geo : Geo} {locs : List String} {season : Option Nat}
    {atoms : List String} {loc : String} (hmem : loc ∈ locs)
    (hrow : UsFusion.get_weight_row geo loc season atoms
      = .error "location has no constituent atoms") :
    ∃ e, UsFusion.get_weight_matrix geo locs season atoms = .error e := by
  induction locs with
  | nil => cases hmem
  | cons l rest ih =>
    by_cases h1 : l = loc
    · subst h1
      refine ⟨"location has no constituent atoms", ?_⟩
      unfold UsFusion.get_weight_matrix
      rw [hrow]
    · have h2 : loc ∈ rest := by
        rcases List.mem_cons.mp hmem with ha | hb
        · exact absurd ha.symm h1
        · exact hb
      cases hl : UsFusion.get_weight_row geo l season atoms with
      | error e =>
        refine ⟨e, ?_⟩
        unfold UsFusion.get_weight_matrix
        rw [hl]
      | ok row =>
        obtain ⟨e, he⟩ := ih h2
        refine ⟨e, ?_⟩
        unfold UsFusion.get_weight_matrix
        rw [hl, he]

/-! ### Helper lemmas: output row selection -/

theorem select_rows_length {locs : List String} {rows : List Nat} {out : List String}
    (h : UsFusion.select_rows locs rows = .ok out) : out.length = rows.length := by
  induction rows generalizing out with
  | nil => unfold UsFusion.select_rows at h; cases h; rfl
  | cons i rest ih =>
    unfold UsFusion.select_rows at h
    cases hg : locs.get? i with
    | none => rw [hg] at h; cases h
    | some loc =>
      rw [hg] at h
      cases hrest : UsFusion.select_rows locs rest with
      | error e => rw [hrest] at h; cases h
      | ok o =>
        rw [hrest] at h
        cases h
        simp [ih hrest]

theorem select_rows_mem {locs : List String} {rows : List Nat} {out : List String}
    (h : UsFusion.select_rows locs rows = .ok out) : ∀ x ∈ out, x ∈ locs := by
  induction rows generalizing out with
  | nil => unfold UsFusion.select_rows at h; cases h; intro x hx; cases hx
  | cons i rest ih =>
    unfold UsFusion.select_rows at h
    cases hg : locs.get? i with
    | none => rw [hg] at h; cases h
    | some loc =>
      rw [hg] at h
      cases hrest : UsFusion.select_rows locs rest with
      | error e => rw [hrest] at h; cases h
      | ok o =>
        rw [hrest] at h
        cases h
        intro x hx
        rcases List.mem_cons.mp hx with h1 | h2
        · subst h1; exact List.get?_mem hg
        · exact ih hrest x h2

/-! ### Helper lemmas: inversion of the statespace derivation -/

theorem usds_ok_inv {geo : Geo} {ins : List String} {season : Option Nat} {excl : List String}
    {H W : List (List ℚ)} {outs : List String}
    (h : UsFusion.determine_statespace geo ins season excl = .ok (H, W, outs)) :
    ∃ H0 W0,
      UsFusion.get_weight_matrix geo ins season (UsFusion.filtered_atoms geo excl) = .ok H0 ∧
      UsFusion.get_weight_matrix geo (UsFusion.candidate_outputs geo excl) season
        (UsFusion.filtered_atoms geo excl) = .ok W0 ∧
      ((((UsFusion.filtered_atoms geo excl).all (fun a => decide (a ∈ ins))) = true ∧
        H = H0 ∧ W = W0 ∧ outs = UsFusion.candidate_outputs geo excl) ∨
       (H = (fusion.determine_statespace H0 W0).1 ∧
        W = (fusion.determine_statespace H0 W0).2.1 ∧
        UsFusion.select_rows (UsFusion.candidate_outputs geo excl)
          (fusion.determine_statespace H0 W0).2.2 = .ok outs)) := by
  unfold UsFusion.determine_statespace at h
  split at h
  · cases h
  · split at h
    · cases h
    · rename_i H0 hH0
      split at h
      · cases h
      · rename_i W0 hW0
        split at h
        · rename_i hall
          cases h
          exact ⟨_, _, hH0, hW0, Or.inl ⟨hall, rfl, rfl, rfl⟩⟩
        · split at h
          · cases h
          · rename_i out hout
            cases h
            exact ⟨_, _, hH0, hW0, Or.inr ⟨rfl, rfl, hout⟩⟩

theorem fds_W_length (H0 W0 : List (List ℚ)) :
    (fusion.determine_statespace H0 W0).2.1.length
      = (fusion.determine_statespace H0 W0).2.2.length := by
  unfold fusion.determine_statespace
  split
  · simp
  · simp
theorem usds_outs_mem {geo : Geo} {ins : List String} {season : Option Nat} {excl : List String}
    {H W : List (List ℚ)} {outs : List String}
    (h : UsFusion.determine_statespace geo ins season excl = .ok (H, W, outs)) :
    ∀ x ∈ outs, x ∈ UsFusion.candidate_outputs geo excl := by
  obtain ⟨H0, W0, hH0, hW0, hcase⟩ := usds_ok_inv h
  rcases hcase with ⟨_, _, _, houts⟩ | ⟨_, _, hsel⟩
  · intro x hx; rw [houts] at hx; exact hx
  · exact select_rows_mem hsel

theorem usds_W_length {geo : Geo} {ins : List String} {season : Option Nat} {excl : List String}
    {H W : List (List ℚ)} {outs : List String}
    (h : UsFusion.determine_statespace geo ins season excl = .ok (H, W, outs)) :
    W.length = outs.length := by
  obtain ⟨H0, W0, hH0, hW0, hcase⟩ := usds_ok_inv h
  rcases hcase with ⟨_, _, hW, houts⟩ | ⟨_, hW, hsel⟩
  · rw [hW, houts]
    exact weight_matrix_length hW0
  · rw [hW, fds_W_length, select_rows_length hsel]

theorem pivotColsQ_nil : pivotColsQ ([] : List (List ℚ)) = [] := by
  simp [pivotColsQ, rrefData, rrefGo]

theorem span_residual_nil_pivots (basis : List (List ℚ)) (v : List ℚ) :
    fusion.span_residual [] basis v = v := by
  unfold fusion.span_residual
  rfl

theorem fds_nil_selected {W0 : List (List ℚ)} (hrows : ∀ row ∈ W0, row.sum = 1) :
    (fusion.determine_statespace [] W0).2.2 = [] := by
  unfold fusion.determine_statespace
  cases W0 with
  | nil => split <;> simp [fusion.selected_of]
  | cons r rest =>
    have hr : r.sum = 1 := hrows r (by simp)
    have hlen : r.length ≠ 0 := by
      intro h0
      rw [List.eq_nil_of_length_eq_zero h0] at hr
      simp at hr
    have hcond : ¬(rankQ ([] : List (List ℚ))
        = ((([] : List (List ℚ)) ++ r :: rest).headD []).length) := by
      rw [show rankQ ([] : List (List ℚ)) = 0 by simp [rankQ, pivotColsQ_nil]]
      simpa using fun hx => hlen hx.symm
    rw [if_neg hcond]
    have hsel : fusion.selected_of [] (r :: rest) = [] := by
      unfold fusion.selected_of
      rw [List.filter_eq_nil_iff]
      intro p hp
      unfold fusion.observable_row
      rw [show rankQ ([] : List (List ℚ)) = 0 by simp [rankQ, pivotColsQ_nil], pivotColsQ_nil]
      rw [span_residual_nil_pivots]
      have hmem : p.2 ∈ r :: rest := by
        apply List.getElem?_mem
        exact List.mem_enum_iff_getElem?.mp hp
      rw [sum_eq_one_not_all_zero (hrows p.2 hmem)]
      simp
    rw [hsel]
    simp

theorem w0_rows_sum_one {geo : Geo} {locs : List String} {season : Option Nat}
    {atoms : List String} {W0 : List (List ℚ)}
    (h : UsFusion.get_weight_matrix geo locs season atoms = .ok W0) :
    ∀ row ∈ W0, row.sum = 1 := by
  intro row hrow
  obtain ⟨loc, _, hok⟩ := forall2_mem_right (weight_matrix_forall2 h) hrow
  exact weight_row_sum_one hok

theorem usds_nil_inputs {geo : Geo} {season : Option Nat} {excl : List String}
    {H W : List (List ℚ)} {outs : List String}
    (h : UsFusion.determine_statespace geo [] season excl = .ok (H, W, outs)) : outs = [] := by
  obtain ⟨H0, W0, hH0, hW0, hcase⟩ := usds_ok_inv h
  have h2 : UsFusion.get_weight_matrix geo [] season (UsFusion.filtered_atoms geo excl)
      = Except.ok ([] : List (List ℚ)) := rfl
  rw [h2] at hH0
  cases hH0
  rcases hcase with ⟨hall, _, _, houts⟩ | ⟨_, _, hsel⟩
  · -- the shortcut was taken, so every non-excluded atom is an input; there are
    -- no inputs, so there are no atoms, and then no candidate has a weight row
    have hatoms : UsFusion.filtered_atoms geo excl = [] := by
      rw [List.eq_nil_iff_forall_not_mem]
      intro a ha
      have := (List.all_eq_true.mp hall) a ha
      simp at this
    cases hcand : UsFusion.candidate_outputs geo excl with
    | nil => rw [houts, hcand]
    | cons c rest =>
      exfalso
      have hzero : (UsFusion.constituent_populations geo c season
          (UsFusion.filtered_atoms geo excl)).sum = 0 := by
        rw [hatoms]
        rfl
      obtain ⟨e, he⟩ := weight_matrix_error_of_mem
        (show c ∈ c :: rest by simp) (weight_row_error hzero)
      rw [hcand, he] at hW0
      cases hW0
  · have hnil : (fusion.determine_statespace [] W0).2.2 = [] :=
      fds_nil_selected (w0_rows_sum_one hW0)
    rw [hnil] at hsel
    have h3 : UsFusion.select_rows (UsFusion.candidate_outputs geo excl) ([] : List Nat)
        = Except.ok ([] : List String) := rfl
    rw [h3] at hsel
    cases hsel
    rfl

/-! ### Helper lemmas: a week with no usable sensors aborts the batch -/

theorem compute_nowcast_nil (geo : Geo) (mle : List (List (Option ℚ)) → List (List ℚ))
    (noise : List (List (Option ℚ))) (reading : List ℚ) (season : Option Nat)
    (excl : List String) :
    (∃ e, Nowcast.compute_nowcast geo mle [] noise reading season excl = .error e) ∨
    Nowcast.compute_nowcast geo mle [] noise reading season excl = .ok [] := by
  unfold Nowcast.compute_nowcast
  cases hss : UsFusion.determine_statespace geo [] season excl with
  | error e => exact Or.inl ⟨e, rfl⟩
  | ok t =>
    obtain ⟨H, W, outs⟩ := t
    have houts : outs = [] := usds_nil_inputs hss
    subst houts
    dsimp only
    cases hf : fusion.fuse reading (mle noise) H with
    | error e => exact Or.inl ⟨e, rfl⟩
    | ok p =>
      obtain ⟨x, P⟩ := p
      right
      rfl

theorem process_week_error (geo : Geo) (mle : List (List (Option ℚ)) → List (List ℚ))
    {ds : DataSource} {min_observations : Nat} {inputs : List (String × String)}
    {noise : List (List (Option ℚ))} {week : Nat} {week_reading : List (Option ℚ)}
    (h : (Nowcast.get_sensor_data_for_week ds min_observations inputs noise week week_reading
      (ds.get_missing_locations week)).1 = []) :
    ∃ e, Nowcast.process_week geo mle ds min_observations inputs noise week week_reading
      = .error e := by
  unfold Nowcast.process_week
  rw [h]
  rcases compute_nowcast_nil geo mle
      (Nowcast.get_sensor_data_for_week ds min_observations inputs noise week week_reading
        (ds.get_missing_locations week)).2.1
      ((Nowcast.get_sensor_data_for_week ds min_observations inputs noise week week_reading
        (ds.get_missing_locations week)).2.2.map (fun c => c.getD 0))
      (some (Nowcast.get_season week)) (ds.get_missing_locations week) with
    ⟨e, he⟩ | hok
  · exact ⟨e, by rw [he]⟩
  · exact ⟨"IndexError: tuple index out of range", by rw [hok]; rfl⟩

theorem batch_go_error {geo : Geo} {mle : List (List (Option ℚ)) → List (List ℚ)}
    {ds : DataSource} {min_observations : Nat} {inputs : List (String × String)}
    {noise : List (List (Option ℚ))} {pairs : List (Nat × List (Option ℚ))}
    (week : Nat) (week_reading : List (Option ℚ))
    (hmem : (week, week_reading) ∈ pairs)
    (h : (Nowcast.get_sensor_data_for_week ds min_observations inputs noise week week_reading
      (ds.get_missing_locations week)).1 = []) :
    ∃ e, Nowcast.batch_go geo mle ds min_observations inputs noise pairs = .error e := by
  induction pairs with
  | nil => cases hmem
  | cons p rest ih =>
    rcases List.mem_cons.mp hmem with h1 | h2
    · obtain ⟨e, he⟩ := process_week_error geo mle h
      refine ⟨e, ?_⟩
      unfold Nowcast.batch_go
      subst h1
      rw [he]
    · cases hp : Nowcast.process_week geo mle ds min_observations inputs noise p.1 p.2 with
      | error e =>
        refine ⟨e, ?_⟩
        unfold Nowcast.batch_go
        rw [show p = (p.1, p.2) from rfl, hp]
      | ok nc =>
        obtain ⟨e, he⟩ := ih h2
        refine ⟨e, ?_⟩
        unfold Nowcast.batch_go
        rw [show p = (p.1, p.2) from rfl, hp, he]

/-! ### Claim C1 -/

/-- Claim C1, as amended: when the per-week pruning of some test week leaves zero
usable sensor columns, batch_nowcast does not skip the week and continue; the
empty nowcast (or an upstream failure) raises, so the whole batch aborts with an
error. -/
theorem c1_empty_week_aborts_batch (geo : Geo)
    (mle : List (List (Option ℚ)) → List (List ℚ)) (ds : DataSource)
    (min_observations : Nat) (test_weeks : List Nat)
    (h : ∃ p ∈ test_weeks.zip (Nowcast.get_sensor_data_for_all_weeks ds test_weeks).2.2,
      (Nowcast.get_sensor_data_for_week ds min_observations
        (Nowcast.get_sensor_data_for_all_weeks ds test_weeks).1
        (Nowcast.get_sensor_data_for_all_weeks ds test_weeks).2.1
        p.1 p.2 (ds.get_missing_locations p.1)).1 = []) :
    ∃ e, Nowcast.batch_nowcast geo mle ds min_observations test_weeks = .error e := by
  obtain ⟨p, hmem, hempty⟩ := h
  unfold Nowcast.batch_nowcast
  exact batch_go_error p.1 p.2 (by simpa using hmem) hempty

/-- Claim C1, counterexample to the claim as stated: a concrete batch in which
test week 7 has zero usable sensor columns after pruning (its only reading is
missing) aborts with an error instead of emitting nothing for week 7 and
continuing to week 8. -/
theorem c1_counterexample :
    ∃ e, Nowcast.batch_nowcast geoSingle mleNil dsSkip 1 [7, 8] = Except.error e := by
  unfold Nowcast.batch_nowcast
  have hall : Nowcast.get_sensor_data_for_all_weeks dsSkip [7, 8]
      = ([("s", "x")], [[some 1]], [[none], [some 2]]) := by
    norm_num [Nowcast.get_sensor_data_for_all_weeks, dsSkip, Nowcast.noise_cell,
      Nowcast.reading_cell, compress, List.range_succ]
  rw [hall]
  apply batch_go_error 7 [none]
  · norm_num
  · norm_num [Nowcast.get_sensor_data_for_week, dsSkip, compress, List.range_succ,
      List.countP_cons]

/-- Claim C1, witness for the amended theorem at a concrete batch. -/
theorem c1_witness :
    (∃ p ∈ ([7, 8] : List Nat).zip (Nowcast.get_sensor_data_for_all_weeks dsSkip [7, 8]).2.2,
      (Nowcast.get_sensor_data_for_week dsSkip 1
        (Nowcast.get_sensor_data_for_all_weeks dsSkip [7, 8]).1
        (Nowcast.get_sensor_data_for_all_weeks dsSkip [7, 8]).2.1
        p.1 p.2 (dsSkip.get_missing_locations p.1)).1 = []) ∧
    (∃ e, Nowcast.batch_nowcast geoSingle mleNil dsSkip 1 [7, 8] = .error e) := by
  have hh : ∃ p ∈ ([7, 8] : List Nat).zip
      (Nowcast.get_sensor_data_for_all_weeks dsSkip [7, 8]).2.2,
      (Nowcast.get_sensor_data_for_week dsSkip 1
        (Nowcast.get_sensor_data_for_all_weeks dsSkip [7, 8]).1
        (Nowcast.get_sensor_data_for_all_weeks dsSkip [7, 8]).2.1
        p.1 p.2 (dsSkip.get_missing_locations p.1)).1 = [] := by
    refine ⟨(7, [none]), ?_, ?_⟩
    · norm_num [Nowcast.get_sensor_data_for_all_weeks, dsSkip, Nowcast.noise_cell,
        Nowcast.reading_cell, compress, List.range_succ]
    · norm_num [Nowcast.get_sensor_data_for_all_weeks, Nowcast.get_sensor_data_for_week,
        dsSkip, Nowcast.noise_cell, Nowcast.reading_cell, compress, List.range_succ,
        List.countP_cons]
  exact ⟨hh, c1_empty_week_aborts_batch geoSingle mleNil dsSkip 1 [7, 8] hh⟩

/-! ### Claim C3 -/

/-- Claim C3: whenever the excluded atoms and the input locations share an
element, UsFusion.determine_statespace fails fatally with the sanity-check
exception instead of returning a statespace. -/
theorem c3_excluded_input_is_fatal (geo : Geo) (ins : List String) (season : Option Nat)
    (excl : List String) (h : ∃ a, a ∈ excl ∧ a ∈ ins) :
    UsFusion.determine_statespace geo ins season excl
      = .error "input contains excluded locations" := by
  unfold UsFusion.determine_statespace
  have hc : (excl.any fun a => decide (a ∈ ins)) = true := by
    rw [List.any_eq_true]
    obtain ⟨a, h1, h2⟩ := h
    exact ⟨a, h1, by simpa using h2⟩
  rw [if_pos hc]

/-- Claim C3, witness at a concrete catalog and input tuple. -/
theorem c3_witness :
    (∃ a, a ∈ (["x"] : List String) ∧ a ∈ (["x"] : List String)) ∧
    UsFusion.determine_statespace geoSingle ["x"] none ["x"]
      = .error "input contains excluded locations" :=
  ⟨⟨"x", by simp, by simp⟩,
   c3_excluded_input_is_fatal geoSingle ["x"] none ["x"] ⟨"x", by simp, by simp⟩⟩

/-! ### Claim C4 -/

/-- Claim C4: when the constituent atoms of a location among the given atom list
have nonzero total population, the weight row is returned as exact rationals, it
sums exactly to one, has one entry per atom, and every atom outside the location
receives weight exactly zero. -/
theorem c4_weight_row_sums_to_one (geo : Geo) (loc : String) (season : Option Nat)
    (atoms : List String)
    (h : (UsFusion.constituent_populations geo loc season atoms).sum ≠ 0) :
    ∃ r, UsFusion.get_weight_row geo loc season atoms = .ok r ∧
      r.sum = 1 ∧ r.length = atoms.length ∧
      ∀ j, j < atoms.length → atoms.getD j "" ∉ geo.region_map loc → r.getD j 0 = 0 := by
  refine ⟨_, weight_row_ok h, weight_row_sum_one (weight_row_ok h),
    weight_row_length (weight_row_ok h), ?_⟩
  intro j hj hout
  exact weight_row_zero_outside (weight_row_ok h) hj hout

/-- Claim C4, witness: the parent region over its four equally populated atoms. -/
theorem c4_witness :
    (UsFusion.constituent_populations geoPar "par" none ["aa", "bb", "dd", "ee"]).sum ≠ 0 ∧
    ∃ r, UsFusion.get_weight_row geoPar "par" none ["aa", "bb", "dd", "ee"] = .ok r ∧
      r.sum = 1 ∧ r.length = (["aa", "bb", "dd", "ee"] : List String).length ∧
      ∀ j, j < (["aa", "bb", "dd", "ee"] : List String).length →
        (["aa", "bb", "dd", "ee"] : List String).getD j "" ∉ geoPar.region_map "par" →
        r.getD j 0 = 0 := by
  have h : (UsFusion.constituent_populations geoPar "par" none ["aa", "bb", "dd", "ee"]).sum ≠ 0 := by
    norm_num [UsFusion.constituent_populations, geoPar]
  exact ⟨h, c4_weight_row_sums_to_one geoPar "par" none ["aa", "bb", "dd", "ee"] h⟩

/-! ### Claim C9 -/

/-- Claim C9: when no atomic location has a reported truth value on the given
epiweek, get_missing_locations returns the empty tuple, treating every atom as
reporting, rather than the set of all atoms. -/
theorem c9_no_truth_no_missing_locations (atom_list : List String)
    (truth : Nat → String → Option ℚ) (epiweek : Nat)
    (h : ∀ loc ∈ atom_list, truth epiweek loc = none) :
    FluDataSource.get_missing_locations atom_list truth epiweek = [] := by
  unfold FluDataSource.get_missing_locations
  have hav : atom_list.filter (fun loc => (truth epiweek loc).isSome) = [] := by
    rw [List.filter_eq_nil_iff]
    intro a ha
    rw [h a ha]
    simp
  rw [hav]
  rfl

/-- Claim C9, witness: a future week in which no atom reports. -/
theorem c9_witness :
    (∀ loc ∈ (["x", "y"] : List String), (fun (_ : Nat) (_ : String) => (none : Option ℚ)) 205020 loc = none) ∧
    FluDataSource.get_missing_locations ["x", "y"]
      (fun _ _ => (none : Option ℚ)) 205020 = [] :=
  ⟨fun _ _ => rfl,
   c9_no_truth_no_missing_locations ["x", "y"] (fun _ _ => none) 205020 (fun _ _ => rfl)⟩

/-! ### Claim C10 -/

/-- Claim C10: when some candidate output location has zero total population over
the non-excluded atoms (in particular when every constituent atom of a region is
excluded), determine_statespace raises instead of emitting or skipping that
location. -/
theorem c10_zero_population_candidate_fatal (geo : Geo) (ins : List String)
    (season : Option Nat) (excl : List String)
    (h : ∃ loc ∈ UsFusion.candidate_outputs geo excl,
      (UsFusion.constituent_populations geo loc season
        (UsFusion.filtered_atoms geo excl)).sum = 0) :
    ∃ e, UsFusion.determine_statespace geo ins season excl = .error e := by
  obtain ⟨loc, hmem, hzero⟩ := h
  unfold UsFusion.determine_statespace
  by_cases hg : (excl.any fun a => decide (a ∈ ins)) = true
  · rw [if_pos hg]
    exact ⟨_, rfl⟩
  · rw [if_neg hg]
    cases hH0 : UsFusion.get_weight_matrix geo ins season (UsFusion.filtered_atoms geo excl) with
    | error e => exact ⟨e, rfl⟩
    | ok H0 =>
      obtain ⟨e, he⟩ := weight_matrix_error_of_mem hmem (weight_row_error hzero)
      rw [he]
      exact ⟨e, rfl⟩

/-- Claim C10, witness: every constituent atom of the parent region is excluded,
so the parent is a candidate output with zero population over the surviving
atoms. -/
theorem c10_witness :
    (∃ loc ∈ UsFusion.candidate_outputs geoPar ["aa", "bb", "dd", "ee"],
      (UsFusion.constituent_populations geoPar loc none
        (UsFusion.filtered_atoms geoPar ["aa", "bb", "dd", "ee"])).sum = 0) ∧
    ∃ e, UsFusion.determine_statespace geoPar ["par"] none ["aa", "bb", "dd", "ee"]
      = .error e := by
  have h : ∃ loc ∈ UsFusion.candidate_outputs geoPar ["aa", "bb", "dd", "ee"],
      (UsFusion.constituent_populations geoPar loc none
        (UsFusion.filtered_atoms geoPar ["aa", "bb", "dd", "ee"])).sum = 0 := by
    refine ⟨"par", ?_, ?_⟩
    · refine List.mem_filter.mpr ⟨by norm_num [geoPar], by decide⟩
    · norm_num [UsFusion.constituent_populations, UsFusion.filtered_atoms, geoPar]
  exact ⟨h, c10_zero_population_candidate_fatal geoPar ["par"] none ["aa", "bb", "dd", "ee"] h⟩

/-! ### Claim C8 -/

/-- Claim C8: for a statespace derivation with a nonempty excluded-atoms tuple,
no excluded atom appears among the returned output locations, every non-excluded
location of the canonical output list remains a candidate output, and every
candidate weight row is computed over only the non-excluded atoms, renormalized
to sum exactly to one; concretely, excluding two atoms of the parent region
still yields a nowcast for the parent derived from its two surviving atoms with
weights one half each. -/
theorem c8_exclusion_keeps_parent_regions (geo : Geo) (ins : List String)
    (season : Option Nat) (excl : List String) (H W : List (List ℚ)) (outs : List String)
    (_hne : excl ≠ [])
    (hok : UsFusion.determine_statespace geo ins season excl = .ok (H, W, outs)) :
    (∀ a ∈ excl, a ∉ outs) ∧
    (∀ loc ∈ geo.region_list, loc ∉ excl → loc ∈ UsFusion.candidate_outputs geo excl) ∧
    (∀ loc r, UsFusion.get_weight_row geo loc season (UsFusion.filtered_atoms geo excl)
      = .ok r → r.sum = 1) ∧
    (∃ H4 W4 outs4,
      UsFusion.determine_statespace geoPar ["aa", "bb"] none ["dd", "ee"]
        = .ok (H4, W4, outs4) ∧
      "par" ∈ outs4 ∧ "dd" ∉ outs4 ∧ "ee" ∉ outs4 ∧
      UsFusion.get_weight_row geoPar "par" none
        (UsFusion.filtered_atoms geoPar ["dd", "ee"]) = .ok [1/2, 1/2]) := by
  refine ⟨?_, ?_, ?_, ?_⟩
  · intro a ha hout
    have hcand := usds_outs_mem hok a hout
    have := List.mem_filter.mp hcand
    simp at this
    exact this.2 ha
  · intro loc hmem hnotin
    exact List.mem_filter.mpr ⟨hmem, by simpa using hnotin⟩
  · intro loc r hr
    exact weight_row_sum_one hr
  · refine ⟨[[1, 0], [0, 1]], [[1/2, 1/2], [1, 0], [0, 1]], ["par", "aa", "bb"], ?_, ?_, ?_, ?_, ?_⟩
    · unfold UsFusion.determine_statespace
      norm_num +decide [UsFusion.get_weight_matrix, UsFusion.get_weight_row,
        UsFusion.constituent_populations, UsFusion.candidate_outputs,
        UsFusion.filtered_atoms, geoPar, List.filter]
    · simp
    · simp
    · simp
    · norm_num +decide [UsFusion.get_weight_row, UsFusion.constituent_populations,
        UsFusion.filtered_atoms, geoPar, List.filter]

/-- Claim C8, witness: the concrete exclusion scenario, with the conclusion that
no excluded atom appears among the outputs obtained from the theorem. -/
theorem c8_witness :
    (["dd", "ee"] : List String) ≠ [] ∧
    UsFusion.determine_statespace geoPar ["aa", "bb"] none ["dd", "ee"]
      = .ok ([[1, 0], [0, 1]], [[1/2, 1/2], [1, 0], [0, 1]], ["par", "aa", "bb"]) ∧
    (∀ a ∈ (["dd", "ee"] : List String), a ∉ (["par", "aa", "bb"] : List String)) := by
  have hok : UsFusion.determine_statespace geoPar ["aa", "bb"] none ["dd", "ee"]
      = .ok ([[1, 0], [0, 1]], [[1/2, 1/2], [1, 0], [0, 1]], ["par", "aa", "bb"]) := by
    unfold UsFusion.determine_statespace
    norm_num +decide [UsFusion.get_weight_matrix, UsFusion.get_weight_row,
      UsFusion.constituent_populations, UsFusion.candidate_outputs,
      UsFusion.filtered_atoms, geoPar, List.filter]
  refine ⟨by simp, hok, ?_⟩
  exact (c8_exclusion_keeps_parent_regions geoPar ["aa", "bb"] none ["dd", "ee"]
    _ _ _ (by simp) hok).1

/-! ### Claim C6 -/

/-- Claim C6 concerns get_sensor_data_for_week. The claim (and the docstring of
the function itself) says that every returned row has at least one observed
entry. The code decides which rows to keep before dropping columns, so a row
whose only observation lies in a dropped column is kept and comes back entirely
missing. Concretely: two columns, the second column has no test-week reading and
is dropped; the second training row is observed only in that column, yet it is
returned as an all-missing row. -/
theorem c6_returned_row_can_be_all_missing :
    Nowcast.get_sensor_data_for_week dsTwoWeeks 1 [("s", "X"), ("s", "Y")]
        [[some 1, none], [none, some 1]] 3 [some 10, none] []
      = (["X"], [[some 1], [none]], [some 10]) ∧
    [(none : Option ℚ)] ∈ (Nowcast.get_sensor_data_for_week dsTwoWeeks 1
        [("s", "X"), ("s", "Y")] [[some 1, none], [none, some 1]] 3 [some 10, none] []).2.1 := by
  have h : Nowcast.get_sensor_data_for_week dsTwoWeeks 1 [("s", "X"), ("s", "Y")]
      [[some 1, none], [none, some 1]] 3 [some 10, none] []
      = (["X"], [[some 1], [none]], [some 10]) := by
    norm_num +decide [Nowcast.get_sensor_data_for_week, dsTwoWeeks, compress,
      List.range_succ, List.countP_cons]
  rw [h]
  exact ⟨rfl, by simp⟩

/-! ### Claim C5 -/

theorem any_map_general {α β : Type} (f : α → β) (l : List α) (p : β → Bool) :
    (l.map f).any p = l.any (fun a => p (f a)) := by
  induction l with
  | nil => rfl
  | cons a rest ih => simp [ih]

theorem foldl_max_ge_init (l : List Nat) (a : Nat) : a ≤ l.foldl max a := by
  induction l generalizing a with
  | nil => exact Nat.le_refl a
  | cons b rest ih => exact le_trans (Nat.le_max_left a b) (ih (max a b))

theorem le_foldl_max {m : Nat} (l : List Nat) (a : Nat) (hm : m ∈ l) : m ≤ l.foldl max a := by
  induction l generalizing a with
  | nil => cases hm
  | cons b rest ih =>
    rcases List.mem_cons.mp hm with h1 | h2
    · subst h1
      exact le_trans (Nat.le_max_right a m) (foldl_max_ge_init rest (max a m))
    · exact ih (max a b) h2

theorem foldl_max_le {m : Nat} (l : List Nat) (a : Nat) (ha : a ≤ m)
    (h : ∀ w ∈ l, w ≤ m) : l.foldl max a ≤ m := by
  induction l generalizing a with
  | nil => exact ha
  | cons b rest ih =>
    exact ih (max a b) (max_le ha (h b (by simp))) (fun w hw => h w (by simp [hw]))

theorem foldl_max_eq {test_weeks : List Nat} {m : Nat} (hm : m ∈ test_weeks)
    (hmax : ∀ w ∈ test_weeks, w ≤ m) : test_weeks.foldl max 0 = m :=
  Nat.le_antisymm (foldl_max_le test_weeks 0 (Nat.zero_le m) hmax)
    (le_foldl_max test_weeks 0 hm)

/-- Claim C5: the bulk assembly trains exactly on the data-source weeks strictly
earlier than the maximum test week, fills a training cell with sensor minus
truth only when both are present (noise_cell), keeps exactly the columns whose
training slice and test slice each contain an observation, and compresses the
inputs list and both matrices to those surviving columns. -/
theorem c5_bulk_assembly (ds : DataSource) (test_weeks : List Nat) (m : Nat)
    (hm : m ∈ test_weeks) (hmax : ∀ w ∈ test_weeks, w ≤ m) :
    Nowcast.get_sensor_data_for_all_weeks ds test_weeks =
      ((ds.get_sensors.flatMap (fun sen => ds.get_locations.map (fun loc => (sen, loc)))).filter
        (fun p =>
          ((ds.get_weeks.filter (fun w => decide (w < m))).any
            (fun w => (Nowcast.noise_cell ds w p).isSome)) &&
          (test_weeks.any (fun w => (Nowcast.reading_cell ds w p).isSome))),
       (ds.get_weeks.filter (fun w => decide (w < m))).map (fun w =>
         ((ds.get_sensors.flatMap (fun sen => ds.get_locations.map (fun loc => (sen, loc)))).filter
           (fun p =>
             ((ds.get_weeks.filter (fun w => decide (w < m))).any
               (fun w => (Nowcast.noise_cell ds w p).isSome)) &&
             (test_weeks.any (fun w => (Nowcast.reading_cell ds w p).isSome)))).map
           (Nowcast.noise_cell ds w)),
       test_weeks.map (fun w =>
         ((ds.get_sensors.flatMap (fun sen => ds.get_locations.map (fun loc => (sen, loc)))).filter
           (fun p =>
             ((ds.get_weeks.filter (fun w => decide (w < m))).any
               (fun w => (Nowcast.noise_cell ds w p).isSome)) &&
             (test_weeks.any (fun w => (Nowcast.reading_cell ds w p).isSome)))).map
           (Nowcast.reading_cell ds w))) := by
  unfold Nowcast.get_sensor_data_for_all_weeks
  dsimp only
  rw [foldl_max_eq hm hmax]
  generalize hI : ds.get_sensors.flatMap (fun sen => ds.get_locations.map (fun loc => (sen, loc)))
    = inputs0
  generalize hT : List.filter (fun w => decide (w < m)) ds.get_weeks = trainW
  have hmask : (List.range inputs0.length).map (fun j =>
      ((trainW.map (fun w => inputs0.map (Nowcast.noise_cell ds w))).any
        (fun row => (row.getD j none).isSome)) &&
      ((test_weeks.map (fun w => inputs0.map (Nowcast.reading_cell ds w))).any
        (fun row => (row.getD j none).isSome)))
      = inputs0.map (fun p =>
        (trainW.any (fun w => (Nowcast.noise_cell ds w p).isSome)) &&
        (test_weeks.any (fun w => (Nowcast.reading_cell ds w p).isSome))) := by
    apply map_range_eq_map inputs0 _ _ ("", "")
    intro j hj
    dsimp only
    rw [any_map_general, any_map_general]
    congr 1
    · congr 1
      funext w
      rw [getD_map_of_lt (Nowcast.noise_cell ds w) inputs0 hj none ("", "")]
    · congr 1
      funext w
      rw [getD_map_of_lt (Nowcast.reading_cell ds w) inputs0 hj none ("", "")]
  rw [hmask, compress_eq_filter]
  refine congrArg₂ (fun a b => (a, b)) rfl ?_
  refine congrArg₂ (fun a b => (a, b)) ?_ ?_
  · rw [List.map_map]
    apply List.map_congr_left
    intro w _
    simp only [Function.comp_apply]
    rw [compress_map (Nowcast.noise_cell ds w) inputs0, compress_eq_filter]
  · rw [List.map_map]
    apply List.map_congr_left
    intro w _
    simp only [Function.comp_apply]
    rw [compress_map (Nowcast.reading_cell ds w) inputs0, compress_eq_filter]

/-- Claim C5, witness: a concrete data source with one usable column, training
weeks 1, 2, 3 against the maximum test week 4, and both all-missing and present
cells. -/
theorem c5_witness :
    ((4 : Nat) ∈ ([3, 4] : List Nat)) ∧ (∀ w ∈ ([3, 4] : List Nat), w ≤ 4) ∧
    Nowcast.get_sensor_data_for_all_weeks dsBulk [3, 4]
      = ([("s", "x")], [[some 2], [none], [none]], [[none], [some 7]]) := by
  refine ⟨by decide, by decide, ?_⟩
  rw [c5_bulk_assembly dsBulk [3, 4] 4 (by decide) (by decide)]
  norm_num +decide [dsBulk, Nowcast.noise_cell, Nowcast.reading_cell, List.filter]

/-! ### Claim C7 -/

/-- Claim C7: for a positive-definite noise precision Ri and a full-column-rank
map H (mulVec injective), the fusion kernel returns the genuine inverse
P of (transpose H) Ri H together with x = P (transpose H) Ri z, and the
extraction step returns y = W x with variances the diagonal of
W P (transpose W). -/
theorem c7_fusion_kernel {i s o : Nat} (z : Matrix (Fin i) (Fin 1) ℝ)
    (Ri : Matrix (Fin i) (Fin i) ℝ) (H : Matrix (Fin i) (Fin s) ℝ)
    (x : Matrix (Fin s) (Fin 1) ℝ) (P : Matrix (Fin s) (Fin s) ℝ)
    (W : Matrix (Fin o) (Fin s) ℝ)
    (hRi : Ri.PosDef) (hH : Function.Injective H.mulVec) :
    (Fusion0.fuse z Ri H).2 = (H.transpose * Ri * H)⁻¹ ∧
    (H.transpose * Ri * H) * (Fusion0.fuse z Ri H).2 = 1 ∧
    (Fusion0.fuse z Ri H).2 * (H.transpose * Ri * H) = 1 ∧
    (Fusion0.fuse z Ri H).1 = (H.transpose * Ri * H)⁻¹ * H.transpose * Ri * z ∧
    (Fusion0.extract x P W).1 = W * x ∧
    (∀ j, (Fusion0.extract x P W).2 j 0 = (W * P * W.transpose) j j) := by
  have hMeq : H.transpose * Ri * H = H.conjTranspose * Ri * H := by
    rw [Matrix.conjTranspose_eq_transpose_of_trivial]
  have hM : (H.transpose * Ri * H).PosDef := by
    constructor
    · rw [hMeq]
      exact Matrix.isHermitian_conjTranspose_mul_mul H hRi.1
    · intro v hv
      have hz : H.mulVec v ≠ 0 := by
        intro h0
        apply hv
        apply hH
        rw [h0, Matrix.mulVec_zero]
      have h2 := hRi.2 (H.mulVec v) hz
      rw [hMeq]
      simpa only [Matrix.star_mulVec, Matrix.dotProduct_mulVec, Matrix.vecMul_vecMul,
        ← Matrix.mul_assoc] using h2
  have hdet : IsUnit (H.transpose * Ri * H).det :=
    isUnit_iff_ne_zero.mpr hM.det_pos.ne'
  refine ⟨rfl, ?_, ?_, ?_, rfl, fun j => rfl⟩
  · exact Matrix.mul_nonsing_inv _ hdet
  · exact Matrix.nonsing_inv_mul _ hdet
  · show (H.transpose * Ri * H)⁻¹ * (H.transpose * Ri) * z
      = (H.transpose * Ri * H)⁻¹ * H.transpose * Ri * z
    rw [Matrix.mul_assoc ((H.transpose * Ri * H)⁻¹) H.transpose Ri]

/-- Claim C7, witness at the one-dimensional identity system. -/
theorem c7_witness :
    (1 : Matrix (Fin 1) (Fin 1) ℝ).PosDef ∧
    Function.Injective (1 : Matrix (Fin 1) (Fin 1) ℝ).mulVec ∧
    ((1 : Matrix (Fin 1) (Fin 1) ℝ).transpose * 1 * 1)
      * (Fusion0.fuse (1 : Matrix (Fin 1) (Fin 1) ℝ) 1 1).2 = 1 := by
  have h1 : (1 : Matrix (Fin 1) (Fin 1) ℝ).PosDef := Matrix.PosDef.one
  have h2 : Function.Injective (1 : Matrix (Fin 1) (Fin 1) ℝ).mulVec := by
    intro a b hab
    rwa [Matrix.one_mulVec, Matrix.one_mulVec] at hab
  exact ⟨h1, h2,
    (c7_fusion_kernel (1 : Matrix (Fin 1) (Fin 1) ℝ) (1 : Matrix (Fin 1) (Fin 1) ℝ)
      (1 : Matrix (Fin 1) (Fin 1) ℝ) (1 : Matrix (Fin 1) (Fin 1) ℝ)
      (1 : Matrix (Fin 1) (Fin 1) ℝ) (1 : Matrix (Fin 1) (Fin 1) ℝ) h1 h2).2.1⟩

/-! ### Helper lemmas: the diagonal of W P (transpose W) is a quadratic form -/

theorem headD_eq_getD_zero {α : Type} (l : List α) (d : α) : l.headD d = l.getD 0 d := by
  cases l <;> rfl

theorem transposeQ_length (M : List (List ℚ)) :
    (transposeQ M).length = (M.headD []).length := by
  unfold transposeQ
  rw [List.length_map, List.length_range]

theorem transposeQ_getD (M : List (List ℚ)) {j : Nat} (hj : j < (M.headD []).length) :
    (transposeQ M).getD j [] = M.map (fun r => r.getD j 0) := by
  unfold transposeQ
  rw [getD_map_range _ _ hj]

theorem transposeQ_headD_length (W : List (List ℚ)) (hk : 0 < (W.headD []).length) :
    ((transposeQ W).headD []).length = W.length := by
  rw [headD_eq_getD_zero, transposeQ_getD W hk, List.length_map]

theorem matMulQ_length (A B : List (List ℚ)) : (matMulQ A B).length = A.length := by
  unfold matMulQ
  rw [List.length_map]

theorem matMulQ_row (A B : List (List ℚ)) {i : Nat} (hi : i < A.length) :
    (matMulQ A B).getD i [] = (transposeQ B).map (fun c => dotQ (A.getD i []) c) := by
  unfold matMulQ
  rw [getD_map_of_lt _ A hi [] []]

theorem transposeQ_transposeQ_getD (W : List (List ℚ)) {i : Nat} (hi : i < W.length)
    (hk : 0 < (W.headD []).length)
    (hW : ∀ r ∈ W, r.length = (W.headD []).length) :
    (transposeQ (transposeQ W)).getD i [] = W.getD i [] := by
  have h1 : ((transposeQ W).headD []).length = W.length := transposeQ_headD_length W hk
  have h2 : (transposeQ (transposeQ W)).getD i []
      = (transposeQ W).map (fun r => r.getD i 0) := by
    apply transposeQ_getD
    rw [h1]
    exact hi
  rw [h2]
  unfold transposeQ
  rw [List.map_map]
  have h3 : ∀ j ∈ List.range (W.headD []).length,
      ((fun r => r.getD i 0) ∘ fun j => W.map (fun r => r.getD j 0)) j
        = (W.getD i []).getD j 0 := by
    intro j _
    simp only [Function.comp_apply]
    rw [getD_map_of_lt _ W hi 0 []]
  rw [List.map_congr_left h3]
  have h4 : (W.getD i []).length = (W.headD []).length := by
    apply hW
    rw [List.getD_eq_getElem W [] hi]
    exact List.getElem_mem hi
  rw [← h4, range_map_getD_self]

theorem diag_WPWt_eq_quadForm (W P : List (List ℚ))
    (hW : ∀ r ∈ W, r.length = (W.headD []).length) {i : Nat} (hi : i < W.length) :
    ((matMulQ (matMulQ W P) (transposeQ W)).getD i []).getD i 0
      = quadFormQ P (W.getD i []) := by
  have hM1len : (matMulQ W P).length = W.length := matMulQ_length W P
  rw [matMulQ_row (matMulQ W P) (transposeQ W) (by rw [hM1len]; exact hi)]
  have hrow : (matMulQ W P).getD i [] = rowVecMulQ (W.getD i []) P := by
    unfold matMulQ rowVecMulQ
    rw [getD_map_of_lt _ W hi [] []]
  rw [hrow]
  have hwi_mem : W.getD i [] ∈ W := by
    rw [List.getD_eq_getElem W [] hi]
    exact List.getElem_mem hi
  have hwi_len : (W.getD i []).length = (W.headD []).length := hW _ hwi_mem
  by_cases hk : 0 < (W.headD []).length
  · have hTTlen : (transposeQ (transposeQ W)).length = W.length := by
      rw [transposeQ_length, transposeQ_headD_length W hk]
    rw [getD_map_of_lt _ (transposeQ (transposeQ W)) (by rw [hTTlen]; exact hi) 0 []]
    rw [transposeQ_transposeQ_getD W hi hk hW]
    rfl
  · have hk0 : (W.headD []).length = 0 := Nat.eq_zero_of_not_pos hk
    have hwi : W.getD i [] = [] :=
      List.eq_nil_of_length_eq_zero (by rw [hwi_len, hk0])
    have hT : transposeQ W = [] := by
      unfold transposeQ
      rw [hk0]
      rfl
    rw [hT, hwi]
    have hTT : transposeQ ([] : List (List ℚ)) = [] := rfl
    rw [hTT]
    unfold quadFormQ dotQ
    simp

/-! ### Claim C2 -/

/-- Claim C2: under the driver preconditions — the statespace derivation and the
fusion kernel succeed, W is rectangular, and the state covariance P is positive
semidefinite on the rows of W — compute_nowcast emits exactly one
(location, mean, stdev) tuple per output location of the statespace solver, in
the solver row order, and every emitted standard deviation is defined and
nonnegative. -/
theorem c2_one_tuple_per_output_stdev_nonneg (geo : Geo)
    (mle : List (List (Option ℚ)) → List (List ℚ)) (ins : List String)
    (noise : List (List (Option ℚ))) (reading : List ℚ) (season : Option Nat)
    (excl : List String) (H W : List (List ℚ)) (outs : List String)
    (x : List ℚ) (P : List (List ℚ))
    (hss : UsFusion.determine_statespace geo ins season excl = .ok (H, W, outs))
    (hfuse : fusion.fuse reading (mle noise) H = .ok (x, P))
    (hW : ∀ r ∈ W, r.length = (W.headD []).length)
    (hPD : ∀ i, i < W.length → 0 ≤ quadFormQ P (W.getD i [])) :
    ∃ res, Nowcast.compute_nowcast geo mle ins noise reading season excl = .ok res ∧
      res.map (fun t => t.1) = outs ∧ res.length = outs.length ∧
      ∀ t ∈ res, ∃ sd, t.2.2 = some sd ∧ 0 ≤ sd := by
  have hres : Nowcast.compute_nowcast geo mle ins noise reading season excl
      = .ok (outs.zip ((fusion.extract x P W).1.zip
          ((diagQ (fusion.extract x P W).2).map np_sqrt))) := by
    unfold Nowcast.compute_nowcast
    rw [hss]
    dsimp only
    rw [hfuse]
  have houts : W.length = outs.length := usds_W_length hss
  have hylen : (fusion.extract x P W).1.length = W.length := by
    unfold fusion.extract matVecQ
    rw [List.length_map]
  have hSlen : (fusion.extract x P W).2.length = W.length := by
    unfold fusion.extract
    rw [matMulQ_length, matMulQ_length]
  have hdlen : (diagQ (fusion.extract x P W).2).length = W.length := by
    unfold diagQ
    rw [List.length_map, List.length_range, hSlen]
  have hstdlen : ((diagQ (fusion.extract x P W).2).map np_sqrt).length = W.length := by
    rw [List.length_map, hdlen]
  refine ⟨_, hres, ?_, ?_, ?_⟩
  · apply List.map_fst_zip
    rw [List.length_zip, hylen, hstdlen, houts]
    simp
  · rw [List.length_zip, List.length_zip, hylen, hstdlen, houts]
    simp
  · intro t ht
    have ht2 : (t.2.1, t.2.2) ∈ (fusion.extract x P W).1.zip
        ((diagQ (fusion.extract x P W).2).map np_sqrt) := by
      have := List.of_mem_zip (a := t.1) (b := t.2) (by simpa using ht)
      simpa using this.2
    have ht3 : t.2.2 ∈ (diagQ (fusion.extract x P W).2).map np_sqrt :=
      (List.of_mem_zip ht2).2
    obtain ⟨q, hq, hnp⟩ := List.mem_map.mp ht3
    unfold diagQ at hq
    obtain ⟨j, hj, hgj⟩ := List.mem_map.mp hq
    have hjlt : j < W.length := by
      have := List.mem_range.mp hj
      rw [hSlen] at this
      exact this
    have hqval : q = quadFormQ P (W.getD j []) := by
      rw [← hgj]
      exact diag_WPWt_eq_quadForm W P hW hjlt
    have hq0 : 0 ≤ q := by
      rw [hqval]
      exact hPD j hjlt
    refine ⟨Real.sqrt (q : ℝ), ?_, Real.sqrt_nonneg _⟩
    rw [← hnp]
    unfold np_sqrt
    rw [if_pos hq0]

/-- Claim C2, witness: one sensor on the single atom, unit covariance, reading
seventeen; exactly one tuple is emitted, for the atom, with stdev one. -/
theorem c2_witness :
    UsFusion.determine_statespace geoSingle ["x"] none [] = .ok ([[1]], [[1]], ["x"]) ∧
    fusion.fuse [17] (mleOne [[some 1]]) [[1]] = .ok ([17], [[1]]) ∧
    (∀ r ∈ ([[1]] : List (List ℚ)), r.length = (([[1]] : List (List ℚ)).headD []).length) ∧
    (∀ i, i < ([[1]] : List (List ℚ)).length →
      0 ≤ quadFormQ [[1]] (([[1]] : List (List ℚ)).getD i [])) ∧
    ∃ res, Nowcast.compute_nowcast geoSingle mleOne ["x"] [[some 1]] [17] none [] = .ok res ∧
      res.map (fun t => t.1) = ["x"] ∧ res.length = (["x"] : List String).length ∧
      ∀ t ∈ res, ∃ sd, t.2.2 = some sd ∧ 0 ≤ sd := by
  have hss : UsFusion.determine_statespace geoSingle ["x"] none []
      = .ok ([[1]], [[1]], ["x"]) := by
    unfold UsFusion.determine_statespace
    norm_num +decide [UsFusion.get_weight_matrix, UsFusion.get_weight_row,
      UsFusion.constituent_populations, UsFusion.candidate_outputs,
      UsFusion.filtered_atoms, geoSingle, List.filter]
  have hfuse : fusion.fuse [17] (mleOne [[some 1]]) [[1]] = .ok ([17], [[1]]) := by
    norm_num +decide [fusion.fuse, mleOne, matInvQ, rrefQ, rrefData, rrefGo, identityQ,
      transposeQ, matMulQ, matVecQ, dotQ, elimRow, List.range_succ, List.findIdx?]
  have hW : ∀ r ∈ ([[1]] : List (List ℚ)), r.length
      = (([[1]] : List (List ℚ)).headD []).length := by
    intro r hr
    simp at hr
    simp [hr]
  have hPD : ∀ i, i < ([[1]] : List (List ℚ)).length →
      0 ≤ quadFormQ [[1]] (([[1]] : List (List ℚ)).getD i []) := by
    intro i hi
    have h0 : i = 0 := Nat.lt_one_iff.mp (by simpa using hi)
    subst h0
    norm_num [quadFormQ, rowVecMulQ, transposeQ, dotQ, List.range_succ]
  exact ⟨hss, hfuse, hW, hPD,
    c2_one_tuple_per_output_stdev_nonneg geoSingle mleOne ["x"] [[some 1]] [17] none []
      [[1]] [[1]] ["x"] [17] [[1]] hss hfuse hW hPD⟩
